import Mathlib

/-!
# Verification of the WonBiz AI note pipeline and hybrid search

A shallow embedding, in Lean 4, of the core logic of the WonBiz AI
voice-note application: the hybrid search merge (`App.tsx`), the note
creation pipeline (`services/assistantService.ts`, `prepareAssistantNote`
and friends), the server's orchestration fallback and transcription
endpoint (`server/index.js`), and the chat-session auto-titling logic
(`components/ChatPage.tsx`).

JavaScript strings are modelled as Lean `String`s; the string operations
used by the code (`toLowerCase`, `includes`, `trim`, `substring`,
`split(' ')`, `startsWith`) are re-implemented structurally over the
underlying character list so that all definitions reduce in the kernel.
JavaScript numbers that carry fractional values (durations, vector
scores) are modelled as `ℚ`.  Asynchronous external calls (fetch) are
modelled by passing the outcome of each call in explicitly as an
`Except`-valued parameter, with the list of issued calls returned as a
trace.
-/

/-! ## String operations (structural re-implementations) -/

/-- ASCII lower-casing of one character, as `String.prototype.toLowerCase`
acts on ASCII; non-ASCII characters are left unchanged. -/
def lowerChar (c : Char) : Char :=
  if 'A' ≤ c ∧ c ≤ 'Z' then Char.ofNat (c.toNat + 32) else c

/-- `s.toLowerCase()` (ASCII range). -/
def lowerStr (s : String) : String := ⟨s.data.map lowerChar⟩

/-- Is `needle` an initial segment of `hay`? -/
def isPrefOf : List Char → List Char → Bool
  | [], _ => true
  | _ :: _, [] => false
  | a :: as, b :: bs => a = b && isPrefOf as bs

/-- Is `needle` a contiguous segment of `hay`?  Backs `String.prototype.includes`. -/
def isSegOf (needle : List Char) : List Char → Bool
  | [] => isPrefOf needle []
  | c :: cs => isPrefOf needle (c :: cs) || isSegOf needle cs

/-- `hay.includes(needle)`. -/
def strIncludes (hay needle : String) : Bool := isSegOf needle.data hay.data

/-- The whitespace characters stripped by `String.prototype.trim`
(restricted to the ASCII whitespace actually occurring in queries). -/
def isSpaceChar (c : Char) : Bool := c = ' ' ∨ c = '\t' ∨ c = '\n' ∨ c = '\r'

/-- `s.trim()`. -/
def trimStr (s : String) : String :=
  ⟨((s.data.dropWhile isSpaceChar).reverse.dropWhile isSpaceChar).reverse⟩

/-- `s.substring(0, n)` / `s.slice(0, n)` for the BMP strings the app handles
(JavaScript counts UTF-16 units; we count characters). -/
def takeStr (s : String) (n : Nat) : String := ⟨s.data.take n⟩

/-- `s.length` (same caveat as `takeStr`). -/
def lenStr (s : String) : Nat := s.data.length

/-- `s.startsWith(p)`. -/
def strStartsWith (s p : String) : Bool := isPrefOf p.data s.data

/-! ## Data model (`types.ts`) -/

/-- The literal `0.1` appearing in `prepareAssistantNote`'s duration check
(`duration < 0.1`), written in normalised form so the kernel can compute
with it. -/
def ratPointOne : ℚ := ⟨1, 10, by decide, by decide⟩

/-- The literal `0.9` used by the spec's hybrid-merge example as the remote
`vectorScore`. -/
def ratPointNine : ℚ := ⟨9, 10, by decide, by decide⟩

/-- `Note` from `types.ts`.  The audio blob is represented by its byte size
(the only attribute the core logic inspects); `audioData`/`audioMimeType`
are the server-side base64 mirror. -/
structure Note where
  id : String
  title : String
  createdAt : Nat
  duration : ℚ
  transcript : String
  summary : String
  tags : List String
  audioSize : Option Nat
  vectorScore : Option ℚ
  llmProvider : Option String
  deriving Repr, DecidableEq

/-- `ChatMessage` from `types.ts`. -/
structure ChatMessage where
  id : String
  role : String
  text : String
  timestamp : Nat
  deriving Repr, DecidableEq

/-- `ChatSession` from `types.ts`. -/
structure ChatSession where
  id : String
  title : String
  messages : List ChatMessage
  createdAt : Nat
  updatedAt : Nat
  deriving Repr, DecidableEq

/-! ## Hybrid search: local filter and merge (`App.tsx`) -/

/-- One note's test in the `localFiltered` memo of `App.tsx`:
case-insensitive substring match of the query against title, any tag, or
summary. -/
def noteMatchesQuery (searchQuery : String) (n : Note) : Bool :=
  strIncludes (lowerStr n.title) (lowerStr searchQuery) ||
  n.tags.any (fun t => strIncludes (lowerStr t) (lowerStr searchQuery)) ||
  strIncludes (lowerStr n.summary) (lowerStr searchQuery)

/-- The `localFiltered` memo of `App.tsx`: when the query is non-empty
(truthy), filter the in-memory notes; otherwise all notes. -/
def localFiltered (searchQuery : String) (notes : List Note) : List Note :=
  if searchQuery = "" then notes else notes.filter (noteMatchesQuery searchQuery)

/-- JavaScript `Map.prototype.set` on an insertion-ordered association
list: an existing key keeps its position and gets the new value; a new key
is appended at the end. -/
def mapSet : List (String × Note) → String → Note → List (String × Note)
  | [], k, v => [(k, v)]
  | p :: m, k, v => if p.1 = k then (k, v) :: m else p :: mapSet m k v

/-- `[...].forEach(n => merged.set(n.id, n))` over a list of notes,
starting from map `m`. -/
def insertAllById (m : List (String × Note)) (l : List Note) : List (String × Note) :=
  List.foldl (fun acc n => mapSet acc n.id n) m l

/-- The `displayedNotes` memo of `App.tsx`: on an empty (falsy) query the
raw note list; otherwise the values of a `Map` filled first with the
remote `searchResults`, then with `localFiltered`. -/
def displayedNotes (searchQuery : String) (notes searchResults : List Note) : List Note :=
  if searchQuery = "" then notes
  else (insertAllById [] (searchResults ++ localFiltered searchQuery notes)).map Prod.snd

/-! ### Association-list lemmas for the merge -/

theorem mapSet_keys (m : List (String × Note)) (k : String) (v : Note) :
    (mapSet m k v).map Prod.fst =
      if k ∈ m.map Prod.fst then m.map Prod.fst else m.map Prod.fst ++ [k] := by
  induction m with
  | nil => simp [mapSet]
  | cons p m ih =>
    by_cases hp : p.1 = k
    · simp [mapSet, hp]
    · simp only [mapSet, if_neg hp, List.map_cons, ih, List.mem_cons]
      by_cases hk : k ∈ m.map Prod.fst
      · simp [hk]
      · simp [hk, Ne.symm hp]

theorem mapSet_keys_nodup {m : List (String × Note)} (k : String) (v : Note)
    (h : (m.map Prod.fst).Nodup) : ((mapSet m k v).map Prod.fst).Nodup := by
  rw [mapSet_keys]
  by_cases hk : k ∈ m.map Prod.fst
  · simpa [hk] using h
  · simp only [if_neg hk]
    exact List.Nodup.append h (List.nodup_singleton k)
      (by simpa [List.disjoint_singleton] using hk)

theorem filter_key_eq_nil {m : List (String × Note)} {k : String}
    (h : k ∉ m.map Prod.fst) : m.filter (fun p => decide (p.1 = k)) = [] := by
  induction m with
  | nil => rfl
  | cons p m ih =>
    simp only [List.map_cons, List.mem_cons] at h
    push_neg at h
    simp [List.filter, Ne.symm h.1, ih h.2]

theorem mapSet_filter_self {m : List (String × Note)} (k : String) (v : Note)
    (h : (m.map Prod.fst).Nodup) :
    (mapSet m k v).filter (fun p => decide (p.1 = k)) = [(k, v)] := by
  induction m with
  | nil => simp [mapSet]
  | cons p m ih =>
    simp only [List.map_cons, List.nodup_cons] at h
    by_cases hp : p.1 = k
    · have hk : k ∉ m.map Prod.fst := hp ▸ h.1
      simp [mapSet, hp, List.filter, filter_key_eq_nil hk]
    · simp [mapSet, hp, List.filter, ih h.2]

theorem mapSet_filter_ne {m : List (String × Note)} {k k' : String} (v : Note)
    (hne : k' ≠ k) :
    (mapSet m k v).filter (fun p => decide (p.1 = k')) =
      m.filter (fun p => decide (p.1 = k')) := by
  induction m with
  | nil => simp [mapSet, List.filter, Ne.symm hne]
  | cons p m ih =>
    by_cases hp : p.1 = k
    · simp [mapSet, hp, List.filter, Ne.symm hne, hne]
    · by_cases hp' : p.1 = k'
      · simp [mapSet, hp, List.filter, hp', hne, ih]
      · simp [mapSet, hp, List.filter, hp', hne, ih]

theorem insertAll_filter (l : List Note) :
    ∀ (m : List (String × Note)), (m.map Prod.fst).Nodup → ∀ (k : String),
    (insertAllById m l).filter (fun p => decide (p.1 = k)) =
      match (l.filter (fun n => decide (n.id = k))).getLast? with
      | some n => [(k, n)]
      | none => m.filter (fun p => decide (p.1 = k)) := by
  induction l with
  | nil => intro m _ k; simp [insertAllById]
  | cons n l ih =>
    intro m hm k
    have hstep : insertAllById m (n :: l) = insertAllById (mapSet m n.id n) l := rfl
    rw [hstep, ih (mapSet m n.id n) (mapSet_keys_nodup n.id n hm) k]
    by_cases hn : n.id = k
    · subst hn
      have hfil : (n :: l).filter (fun x => decide (x.id = n.id)) =
        n :: l.filter (fun x => decide (x.id = n.id)) := by simp [List.filter]
      rw [hfil]
      cases hlf : l.filter (fun x => decide (x.id = n.id)) with
      | nil =>
        simp only [List.getLast?_nil, List.getLast?_singleton]
        exact mapSet_filter_self n.id n hm
      | cons x xs =>
        rw [List.getLast?_cons_cons]
        cases hgl : (x :: xs).getLast? with
        | none => simp at hgl
        | some y => rfl
    · have hfil : (n :: l).filter (fun x => decide (x.id = k)) =
        l.filter (fun x => decide (x.id = k)) := by simp [List.filter, hn]
      rw [hfil]
      cases hgl : (l.filter (fun x => decide (x.id = k))).getLast? with
      | none =>
        simp only
        exact mapSet_filter_ne n (Ne.symm hn)
      | some y => rfl

/-- Every entry inserted by `mapSet`/`insertAllById` has the shape
`(n.id, n)`. -/
def goodEntries (m : List (String × Note)) : Prop := ∀ p ∈ m, p.2.id = p.1

theorem mapSet_good {m : List (String × Note)} {k : String} {v : Note}
    (h : goodEntries m) (hv : v.id = k) : goodEntries (mapSet m k v) := by
  induction m with
  | nil => intro p hp; simp [mapSet] at hp; simp [hp, hv]
  | cons q m ih =>
    by_cases hq : q.1 = k
    · intro p hp
      simp only [mapSet, if_pos hq] at hp
      rcases List.mem_cons.mp hp with h1 | h2
      · simp [h1, hv]
      · exact h p (List.mem_cons_of_mem _ h2)
    · intro p hp
      simp only [mapSet, if_neg hq] at hp
      rcases List.mem_cons.mp hp with h1 | h2
      · exact h p (h1 ▸ List.mem_cons_self _ _)
      · exact ih (fun r hr => h r (List.mem_cons_of_mem _ hr)) p h2

theorem insertAll_good (l : List Note) :
    ∀ (m : List (String × Note)), goodEntries m → goodEntries (insertAllById m l) := by
  induction l with
  | nil => intro m hm; exact hm
  | cons n l ih =>
    intro m hm
    exact ih (mapSet m n.id n) (mapSet_good hm rfl)

theorem values_filter (m : List (String × Note)) (h : goodEntries m) (k : String) :
    (m.map Prod.snd).filter (fun x => decide (x.id = k)) =
      (m.filter (fun p => decide (p.1 = k))).map Prod.snd := by
  induction m with
  | nil => rfl
  | cons p m ih =>
    have hp : p.2.id = p.1 := h p (List.mem_cons_self _ _)
    have ht : goodEntries m := fun q hq => h q (List.mem_cons_of_mem _ hq)
    by_cases hk : p.1 = k
    · simp [List.filter, hp, hk, ih ht]
    · simp [List.filter, hp, hk, ih ht]

theorem mapSet_of_not_mem {m : List (String × Note)} {k : String} (v : Note)
    (h : k ∉ m.map Prod.fst) : mapSet m k v = m ++ [(k, v)] := by
  induction m with
  | nil => rfl
  | cons p m ih =>
    simp only [List.map_cons, List.mem_cons] at h
    push_neg at h
    simp [mapSet, Ne.symm h.1, ih h.2]

theorem insertAll_nodup_ids (l : List Note) :
    ∀ (m : List (String × Note)), ((m.map Prod.fst) ++ l.map Note.id).Nodup →
    insertAllById m l = m ++ l.map (fun n => (n.id, n)) := by
  induction l with
  | nil => intro m _; simp [insertAllById]
  | cons n l ih =>
    intro m hm
    have hstep : insertAllById m (n :: l) = insertAllById (mapSet m n.id n) l := rfl
    have hnot : n.id ∉ m.map Prod.fst := by
      intro hx
      exact (List.nodup_append.mp hm).2.2 hx (List.mem_cons_self _ _)
    have hset : mapSet m n.id n = m ++ [(n.id, n)] := mapSet_of_not_mem n hnot
    have hm' : (((m ++ [(n.id, n)]).map Prod.fst) ++ l.map Note.id).Nodup := by
      simpa [List.append_assoc] using hm
    rw [hstep, hset, ih _ hm']
    simp

/-! ## Claim C1: hybrid search merge precedence -/

/-- The local note of the spec's merge example (`{id:1, title:"Budget review"}`). -/
def c1LocalNote : Note :=
  { id := "1", title := "Budget review", createdAt := 0, duration := 0,
    transcript := "", summary := "", tags := [], audioSize := none,
    vectorScore := none, llmProvider := none }

/-- The remote search result of the spec's merge example
(`{id:1, vectorScore:0.9, title:"Budget review"}`). -/
def c1RemoteNote : Note :=
  { c1LocalNote with vectorScore := some ratPointNine }

/-- C1 counterexample: with local notes `[{id:"1", title:"Budget review"}]`
and remote result `[{id:"1", vectorScore:0.9, ...}]` for query "budget",
`displayedNotes` yields exactly the LOCAL record: `forEach` inserts
`searchResults` first and `localFiltered` second, so on a key collision the
local record overwrites the remote one.  The surviving entry's
`vectorScore` is `none`, not `0.9` as the claim states. -/
theorem hybrid_merge_remote_overwrites_counterexample :
    displayedNotes "budget" [c1LocalNote] [c1RemoteNote] = [c1LocalNote] ∧
    c1LocalNote.vectorScore = none ∧
    c1RemoteNote.vectorScore = some ratPointNine ∧
    ¬ ((displayedNotes "budget" [c1LocalNote] [c1RemoteNote]).map Note.vectorScore
        = [some ratPointNine]) := by
  refine ⟨by decide, rfl, rfl, by decide⟩

/-- C1 (amended): for a non-empty query, the merged displayed list contains
exactly one entry per note id; on a collision the entry is the LAST record
inserted for that id — the local-filtered record, since local matches are
inserted after remote results (local overwrites remote, keeping the
position of the first insertion). -/
theorem displayedNotes_collision_unique_last_wins (q : String) (hq : q ≠ "")
    (notes rs : List Note) (k : String) (n : Note)
    (h : ((rs ++ localFiltered q notes).filter (fun x => decide (x.id = k))).getLast?
          = some n) :
    (displayedNotes q notes rs).filter (fun x => decide (x.id = k)) = [n] := by
  unfold displayedNotes
  rw [if_neg hq]
  rw [values_filter _ (insertAll_good _ [] (by intro p hp; cases hp)) k]
  rw [insertAll_filter _ [] (by simp) k, h]
  simp

/-- Witness for C1 (amended) at the spec's own example input. -/
theorem displayedNotes_collision_unique_last_wins_witness :
    (displayedNotes "budget" [c1LocalNote] [c1RemoteNote]).filter
      (fun x => decide (x.id = "1")) = [c1LocalNote] :=
  displayedNotes_collision_unique_last_wins "budget" (by decide)
    [c1LocalNote] [c1RemoteNote] "1" c1LocalNote (by decide)

/-! ## Remote search client and failure handling
(`vectorSearchNotes` in `services/assistantService.ts`, search `useEffect`
in `App.tsx`) -/

/-- The HTTP reply of `POST /api/notes/search` as seen by the client
fetch: `ok` is `response.ok`, `notes` the decoded `data.notes`. -/
structure SearchReply where
  ok : Bool
  notes : List Note
  deriving Repr, DecidableEq

/-- `vectorSearchNotes` from `services/assistantService.ts`: the whole
body sits in a `try`/`catch`; a non-ok response logs a warning and returns
`[]`, and a thrown error (rejected fetch, modelled by `.error`) is caught
and also returns `[]`.  The returned promise therefore always resolves,
which the `Except` codomain makes visible. -/
def vectorSearchNotes (resp : Except String SearchReply) : Except String (List Note) :=
  match resp with
  | .error _ => .ok []
  | .ok r => if r.ok then .ok r.notes else .ok []

/-- `vectorSearchNotes` never rejects: every outcome is `.ok`. -/
theorem vectorSearchNotes_resolves (resp : Except String SearchReply) :
    ∃ l, vectorSearchNotes resp = .ok l := by
  cases resp with
  | error e => exact ⟨[], rfl⟩
  | ok r =>
    by_cases hr : r.ok
    · exact ⟨r.notes, by simp [vectorSearchNotes, hr]⟩
    · exact ⟨[], by simp [vectorSearchNotes, hr]⟩

/-- The search-related component state of `App`. -/
structure SearchState where
  searchResults : List Note
  searchError : Option String
  isSearching : Bool
  deriving Repr, DecidableEq

/-- The async callback body of the search `useEffect` in `App.tsx`: on a
resolved `vectorSearchNotes` call, store the results and clear the error;
on a rejected one, store the error message and clear the results; the
`finally` clause clears `isSearching` either way. -/
def searchCallback (clientResult : Except String (List Note)) (st : SearchState) :
    SearchState :=
  match clientResult with
  | .ok rs => { st with searchResults := rs, searchError := none, isSearching := false }
  | .error e =>
    { st with searchError := some e, searchResults := [], isSearching := false }

/-! ## Claim C8: search failure degradation -/

/-- A note used in the C8 scenario. -/
def c8Note : Note :=
  { id := "n1", title := "Groceries", createdAt := 5, duration := 2,
    transcript := "buy milk", summary := "groceries list", tags := ["todo"],
    audioSize := none, vectorScore := none, llmProvider := some "openai" }

/-- The search state while a query is in flight in the C8 scenario. -/
def c8State : SearchState :=
  { searchResults := [], searchError := none, isSearching := true }

/-- C8 counterexample: when the remote search fetch rejects (network
error), `vectorSearchNotes` swallows the failure and resolves with `[]`,
so the effect's `catch` branch is unreachable and `searchError` stays
`none` — no search-error indicator is surfaced, contrary to the claim. -/
theorem search_failure_indicator_counterexample :
    (searchCallback (vectorSearchNotes (Except.error "network error")) c8State).searchError
      = none ∧
    (searchCallback (vectorSearchNotes (Except.error "network error")) c8State).searchResults
      = [] := by
  exact ⟨rfl, rfl⟩

/-- C8 (amended): on any remote-search failure (rejected fetch or non-ok
response) the displayed list degrades to exactly the local substring
matches — the display is not cleared — but no error indicator is set:
`searchError` remains `none` because `vectorSearchNotes` swallows the
failure and resolves with an empty list. -/
theorem search_failure_degrades_to_local (q : String) (hq : q ≠ "")
    (notes : List Note) (resp : Except String SearchReply) (st : SearchState)
    (hfail : (∃ e, resp = Except.error e) ∨ (∃ r, resp = Except.ok r ∧ r.ok = false))
    (hnd : ((localFiltered q notes).map Note.id).Nodup) :
    displayedNotes q notes
        (searchCallback (vectorSearchNotes resp) st).searchResults
      = localFiltered q notes
    ∧ (searchCallback (vectorSearchNotes resp) st).searchError = none := by
  have hres : vectorSearchNotes resp = Except.ok [] := by
    rcases hfail with ⟨e, he⟩ | ⟨r, hr, hok⟩
    · simp [he, vectorSearchNotes]
    · simp [hr, vectorSearchNotes, hok]
  rw [hres]
  constructor
  · show displayedNotes q notes [] = localFiltered q notes
    unfold displayedNotes
    rw [if_neg hq]
    rw [show ([] : List Note) ++ localFiltered q notes = localFiltered q notes from rfl]
    rw [insertAll_nodup_ids _ [] (by simpa using hnd)]
    rw [List.nil_append, List.map_map,
      show (Prod.snd ∘ fun n : Note => (n.id, n)) = id from rfl, List.map_id]
  · rfl

/-- Witness for C8 (amended): a non-ok HTTP reply during a "groceries"
search leaves the matching local note visible and sets no error. -/
theorem search_failure_degrades_to_local_witness :
    displayedNotes "groceries" [c8Note]
        (searchCallback (vectorSearchNotes (Except.ok ⟨false, []⟩)) c8State).searchResults
      = localFiltered "groceries" [c8Note]
    ∧ (searchCallback (vectorSearchNotes (Except.ok ⟨false, []⟩)) c8State).searchError
      = none :=
  search_failure_degrades_to_local "groceries" (by decide) [c8Note]
    (Except.ok ⟨false, []⟩) c8State (Or.inr ⟨⟨false, []⟩, rfl, rfl⟩) (by decide)

/-! ## Claim C6: search debounce, latest query wins -/

/-- The synchronous decision of the search `useEffect` in `App.tsx` when
`searchQuery` changes: a blank (empty/whitespace) query immediately clears
the remote results and schedules nothing; a non-blank one schedules the
remote search with a 500ms timeout. -/
inductive EffectAction where
  | clearResults : EffectAction
  | scheduleSearch (delayMs : Nat) (query : String) : EffectAction
  deriving Repr, DecidableEq

/-- The guard and `setTimeout` of the search `useEffect`. -/
def searchEffect (searchQuery : String) : EffectAction :=
  if trimStr searchQuery = "" then EffectAction.clearResults
  else EffectAction.scheduleSearch 500 searchQuery

/-- The immediate (synchronous) state change performed by the effect:
a blank query resets results, error and the searching flag; a non-blank
one only raises `isSearching` (results arrive later via the timeout
callback). -/
def searchEffectState (q : String) (st : SearchState) : SearchState :=
  match searchEffect q with
  | EffectAction.clearResults =>
    { searchResults := [], searchError := none, isSearching := false }
  | EffectAction.scheduleSearch _ _ => { st with isSearching := true }

/-- The remote requests actually issued for a timeline of query edits
`(time in ms, new query value)`, in order.  React runs the effect cleanup
(`clearTimeout`) whenever `searchQuery` changes again, so a timeout
scheduled at time `t` with delay `d` only fires — issuing
`vectorSearchNotes(query.trim())` — when no further edit happens before
`t + d`. -/
def debouncedRequests : List (Nat × String) → List String
  | [] => []
  | (t, q) :: rest =>
    match searchEffect q with
    | EffectAction.clearResults => debouncedRequests rest
    | EffectAction.scheduleSearch d q' =>
      (match rest with
       | [] => [trimStr q']
       | (t', _) :: _ => if t + d ≤ t' then [trimStr q'] else [])
        ++ debouncedRequests rest

/-- All consecutive edits of the timeline fall within each other's 500ms
quiet period. -/
def gapsClose : List (Nat × String) → Bool
  | (t, _) :: (t', q') :: rest => decide (t' < t + 500) && gapsClose ((t', q') :: rest)
  | _ => true

/-- C6: if every edit of a non-empty timeline happens within 500ms of the
previous one, exactly one remote request is issued — for the trimmed final
query; and independently, any edit to a blank (empty/whitespace) query
immediately clears the remote results and error and issues no request. -/
theorem search_debounce_latest_query_wins (edits : List (Nat × String))
    (tl : Nat) (ql : String) (hlast : edits.getLast? = some (tl, ql))
    (hg : gapsClose edits = true) (hq : trimStr ql ≠ "") :
    debouncedRequests edits = [trimStr ql]
    ∧ ∀ (q : String) (st : SearchState), trimStr q = "" →
        searchEffect q = EffectAction.clearResults
        ∧ (searchEffectState q st).searchResults = []
        ∧ (searchEffectState q st).searchError = none := by
  constructor
  · induction edits with
    | nil => simp at hlast
    | cons x rest ih =>
      obtain ⟨t, q⟩ := x
      cases rest with
      | nil =>
        simp only [List.getLast?_singleton, Option.some_inj] at hlast
        obtain ⟨ht, hqq⟩ := Prod.mk.injEq .. ▸ hlast
        subst hqq
        simp [debouncedRequests, searchEffect, hq]
      | cons y rest' =>
        obtain ⟨t', q'⟩ := y
        have hlast' : ((t', q') :: rest').getLast? = some (tl, ql) := by
          rwa [List.getLast?_cons_cons] at hlast
        have hg1 : t' < t + 500 := by
          have := hg
          simp only [gapsClose, Bool.and_eq_true, decide_eq_true_eq] at this
          exact this.1
        have hg' : gapsClose ((t', q') :: rest') = true := by
          have := hg
          simp only [gapsClose, Bool.and_eq_true, decide_eq_true_eq] at this
          exact this.2
        have hrec := ih hlast' hg'
        cases hse : searchEffect q with
        | clearResults => simpa [debouncedRequests, hse] using hrec
        | scheduleSearch d q2 =>
          have hd : d = 500 := by
            by_cases hb : trimStr q = "" <;> simp [searchEffect, hb] at hse
            exact hse.1.symm
          have hnofire : ¬ (t + d ≤ t') := by
            rw [hd]; omega
          simpa [debouncedRequests, hse, hnofire] using hrec
  · intro q st hblank
    refine ⟨by simp [searchEffect, hblank], ?_, ?_⟩
    · simp [searchEffectState, searchEffect, hblank]
    · simp [searchEffectState, searchEffect, hblank]

/-- Witness for C6 at the spec's own example: edits "a", "ab", "abc" at
0ms, 100ms, 200ms produce exactly one request, for "abc". -/
theorem search_debounce_latest_query_wins_witness :
    debouncedRequests [(0, "a"), (100, "ab"), (200, "abc")] = [trimStr "abc"]
    ∧ ∀ (q : String) (st : SearchState), trimStr q = "" →
        searchEffect q = EffectAction.clearResults
        ∧ (searchEffectState q st).searchResults = []
        ∧ (searchEffectState q st).searchError = none :=
  search_debounce_latest_query_wins [(0, "a"), (100, "ab"), (200, "abc")]
    200 "abc" (by decide) (by decide) (by decide)

/-! ## Note creation pipeline
(`prepareAssistantNote` and its callees in `services/assistantService.ts`;
`POST /api/transcribe` in `server/index.js`;
`handleRecordingComplete` in `App.tsx`) -/

/-- JavaScript `a || b` on strings: the empty string is falsy. -/
def jsOrStr (v d : String) : String := if v = "" then d else v

/-- JavaScript `a || b` where `a` may be absent (`undefined`/`null`)
or an empty string. -/
def jsOr (v : Option String) (d : String) : String :=
  match v with
  | none => d
  | some s => if s = "" then d else s

/-- The network calls the client pipeline can issue. -/
inductive ApiCall where
  | transcribe : ApiCall
  | orchestrate : ApiCall
  | embed : ApiCall
  | persist : ApiCall
  deriving Repr, DecidableEq

/-- The JSON body of a successful `POST /api/transcribe` reply. -/
structure TranscribeResponse where
  transcript : String
  detectedLanguage : Option String
  deriving Repr, DecidableEq

/-- The success reply built by `POST /api/transcribe` in `server/index.js`
when polling reaches `status === 'completed'`:
`res.json({ transcript: statusData.text || '...' })`.  `statusText` is
AssemblyAI's `statusData.text` and `detectedCode` its detected
`language_code`; the endpoint sends only the transcript — the detected
language is not included in the response. -/
def transcribeEndpointSuccess (statusText detectedCode : Option String) :
    TranscribeResponse :=
  { transcript := jsOr statusText "Transcription completed but no text available.",
    detectedLanguage := none }

/-- `transcribeWithAssemblyAI` from `services/assistantService.ts`: fails
before any network call when the AssemblyAI key is missing; otherwise
issues one call to `/api/transcribe` and returns
`{transcript: data.transcript, detectedLanguage: data.detectedLanguage || 'en'}`.
The second component is the trace of issued calls. -/
def transcribeWithAssemblyAI (hasAssemblyKey : Bool)
    (resp : Except String TranscribeResponse) :
    Except String (String × String) × List ApiCall :=
  if ¬ hasAssemblyKey then (Except.error "Missing AssemblyAI API key", [])
  else
    match resp with
    | Except.error e => (Except.error ("Transcription failed: " ++ e), [ApiCall.transcribe])
    | Except.ok d =>
      (Except.ok (d.transcript, jsOr d.detectedLanguage "en"), [ApiCall.transcribe])

/-- The analysis record `{transcript, summary, title, tags}` produced by
the orchestration layer. -/
structure AnalysisResult where
  transcript : String
  summary : String
  title : String
  tags : List String
  deriving Repr, DecidableEq

/-- `prepareAssistantNote`'s choice of orchestration language from the
detected speech language:
`detectedLanguage.startsWith('zh') ? 'zh' : 'en'`. -/
def orchestrationLanguageOf (detectedLanguage : String) : String :=
  if strStartsWith detectedLanguage "zh" then "zh" else "en"

/-- `runLlamaIndexOrchestration` from `services/assistantService.ts`:
fails before any network call when the LlamaCloud key is missing;
otherwise issues one call to `/api/orchestrate`. -/
def runLlamaIndexOrchestration (hasLlamaKey : Bool)
    (resp : Except String AnalysisResult) :
    Except String AnalysisResult × List ApiCall :=
  if ¬ hasLlamaKey then (Except.error "Missing LlamaIndex (LlamaCloud) API key", [])
  else
    match resp with
    | Except.error e => (Except.error ("Orchestration failed: " ++ e), [ApiCall.orchestrate])
    | Except.ok a => (Except.ok a, [ApiCall.orchestrate])

/-- `embedTranscript` from `services/assistantService.ts`: one call to
`/api/embed`; a non-ok response is a hard failure. -/
def embedTranscript (resp : Except String (List ℚ)) :
    Except String (List ℚ) × List ApiCall :=
  match resp with
  | Except.error e => (Except.error ("Embedding generation failed: " ++ e), [ApiCall.embed])
  | Except.ok v => (Except.ok v, [ApiCall.embed])

/-- The outcomes of the external calls available to one run of the client
pipeline, plus key availability. -/
structure PipelineEnv where
  hasAssemblyKey : Bool
  hasLlamaKey : Bool
  transcribeResp : Except String TranscribeResponse
  orchestrateResp : Except String AnalysisResult
  embedResp : Except String (List ℚ)
  persistResp : Except String Bool
  deriving Repr

/-- `prepareAssistantNote` from `services/assistantService.ts`: validate
the audio (empty blob, sub-0.1s duration) before any network call, then
transcribe, choose the orchestration language from the detected speech
language, orchestrate, embed the ORIGINAL transcript, and assemble the
`Note` (with per-language fallback defaults for empty fields).
`now` stands for `Date.now()`. -/
def prepareAssistantNote (env : PipelineEnv) (audioSize : Nat) (duration : ℚ)
    (provider : String) (now : Nat) :
    Except String (Note × List ℚ) × List ApiCall :=
  if audioSize = 0 then (Except.error "Audio blob is empty", [])
  else if duration < ratPointOne then
    (Except.error "Recording is too short. Please record for at least 1 second.", [])
  else
    let t := transcribeWithAssemblyAI env.hasAssemblyKey env.transcribeResp
    match t.1 with
    | Except.error e => (Except.error e, t.2)
    | Except.ok (transcript, detectedLanguage) =>
      let orchestrationLanguage := orchestrationLanguageOf detectedLanguage
      let o := runLlamaIndexOrchestration env.hasLlamaKey env.orchestrateResp
      match o.1 with
      | Except.error e => (Except.error e, t.2 ++ o.2)
      | Except.ok analysis =>
        let em := embedTranscript env.embedResp
        match em.1 with
        | Except.error e => (Except.error e, t.2 ++ o.2 ++ em.2)
        | Except.ok embedding =>
          let note : Note :=
            { id := toString now, createdAt := now, duration := duration,
              audioSize := some audioSize,
              transcript := jsOrStr analysis.transcript transcript,
              summary := jsOrStr analysis.summary
                (if orchestrationLanguage = "zh" then "摘要不可用。" else "No summary available."),
              title := jsOrStr analysis.title
                (if orchestrationLanguage = "zh" then "未命名录音" else "Untitled Recording"),
              tags := analysis.tags,
              vectorScore := none,
              llmProvider := some provider }
          (Except.ok (note, embedding), t.2 ++ o.2 ++ em.2)

/-- `upsertNoteToMongo` from `services/assistantService.ts`: the whole
body sits in a `try`/`catch`; a non-ok response (`.ok false`) and a thrown
error (`.error`) are both only logged with `console.warn`.  The function's
promise always resolves; the second component is the warning logged, if
any. -/
def upsertNoteToMongo (resp : Except String Bool) :
    Except String Unit × Option String :=
  match resp with
  | Except.error e => (Except.ok (), some ("MongoDB upsert error: " ++ e))
  | Except.ok true => (Except.ok (), none)
  | Except.ok false => (Except.ok (), some "Failed to save note to MongoDB")

/-- Outcome of a `handleRecordingComplete` run in `App.tsx`. -/
structure HandleResult where
  notes : List Note
  alertMsg : Option String
  persistLog : Option String
  trace : List ApiCall
  deriving Repr, DecidableEq

/-- `handleRecordingComplete` from `App.tsx`: run `prepareAssistantNote`,
then `await upsertNoteToMongo(note, embedding)` and prepend the note to
the in-memory list; any rejection reaching the `catch` triggers the alert
and leaves the note list unchanged. -/
def handleRecordingComplete (env : PipelineEnv) (audioSize : Nat) (duration : ℚ)
    (provider : String) (now : Nat) (notes : List Note) : HandleResult :=
  let pr := prepareAssistantNote env audioSize duration provider now
  match pr.1 with
  | Except.error e =>
    { notes := notes, alertMsg := some ("Failed to process recording: " ++ e),
      persistLog := none, trace := pr.2 }
  | Except.ok (note, _embedding) =>
    match upsertNoteToMongo env.persistResp with
    | (Except.ok _, log) =>
      { notes := note :: notes, alertMsg := none, persistLog := log,
        trace := pr.2 ++ [ApiCall.persist] }
    | (Except.error e, log) =>
      { notes := notes, alertMsg := some ("Failed to process recording: " ++ e),
        persistLog := log, trace := pr.2 ++ [ApiCall.persist] }

/-! ## Claim C2: detected-language contract -/

/-- C2 (code bug): the client pipeline chooses the orchestration language
from `data.detectedLanguage`, but the server's `/api/transcribe` success
reply is `res.json({ transcript: ... })` — it never includes
`detectedLanguage`, even when AssemblyAI detected one (first conjunct,
for every poll outcome).  So for a Chinese recording the client sees
`undefined || 'en' = 'en'` (second conjunct) and orchestrates in English,
whereas the claimed contract would require `zh` (last conjunct). -/
theorem transcribe_detected_language_dropped :
    (∀ (statusText detectedCode : Option String),
        (transcribeEndpointSuccess statusText detectedCode).detectedLanguage = none)
    ∧ (transcribeWithAssemblyAI true
        (Except.ok (transcribeEndpointSuccess (some "你好，世界") (some "zh")))).1
        = Except.ok ("你好，世界", "en")
    ∧ orchestrationLanguageOf "en" = "en"
    ∧ orchestrationLanguageOf "zh" = "zh" := by
  refine ⟨fun _ _ => rfl, rfl, by decide, by decide⟩

/-! ## Claim C3: validation fail-fast -/

/-- C3: for empty audio (`size == 0`) or sub-threshold duration
(`< 0.1s`), `prepareAssistantNote` fails with a validation error and the
call trace is empty — no transcription, orchestration, embedding or
persistence call is issued, including at the `handleRecordingComplete`
level. -/
theorem validation_fail_fast (env : PipelineEnv) (audioSize : Nat) (duration : ℚ)
    (provider : String) (now : Nat) (notes : List Note)
    (h : audioSize = 0 ∨ duration < ratPointOne) :
    (∃ e, (prepareAssistantNote env audioSize duration provider now).1 = Except.error e)
    ∧ (prepareAssistantNote env audioSize duration provider now).2 = []
    ∧ (handleRecordingComplete env audioSize duration provider now notes).trace = []
    ∧ (handleRecordingComplete env audioSize duration provider now notes).notes = notes := by
  by_cases hz : audioSize = 0
  · refine ⟨⟨"Audio blob is empty", ?_⟩, ?_, ?_, ?_⟩ <;>
      simp [prepareAssistantNote, handleRecordingComplete, hz]
  · have hd : duration < ratPointOne := h.resolve_left hz
    refine ⟨⟨"Recording is too short. Please record for at least 1 second.", ?_⟩, ?_, ?_, ?_⟩ <;>
      simp [prepareAssistantNote, handleRecordingComplete, hz, hd]

/-- Witness for C3 at an empty audio blob. -/
theorem validation_fail_fast_witness :
    (∃ e, (prepareAssistantNote
        ⟨true, true, Except.ok ⟨"hi", none⟩, Except.ok ⟨"hi", "s", "t", []⟩,
         Except.ok [1], Except.ok true⟩ 0 3 "openai" 7).1 = Except.error e)
    ∧ (prepareAssistantNote
        ⟨true, true, Except.ok ⟨"hi", none⟩, Except.ok ⟨"hi", "s", "t", []⟩,
         Except.ok [1], Except.ok true⟩ 0 3 "openai" 7).2 = []
    ∧ (handleRecordingComplete
        ⟨true, true, Except.ok ⟨"hi", none⟩, Except.ok ⟨"hi", "s", "t", []⟩,
         Except.ok [1], Except.ok true⟩ 0 3 "openai" 7 []).trace = []
    ∧ (handleRecordingComplete
        ⟨true, true, Except.ok ⟨"hi", none⟩, Except.ok ⟨"hi", "s", "t", []⟩,
         Except.ok [1], Except.ok true⟩ 0 3 "openai" 7 []).notes = [] :=
  validation_fail_fast
    ⟨true, true, Except.ok ⟨"hi", none⟩, Except.ok ⟨"hi", "s", "t", []⟩,
     Except.ok [1], Except.ok true⟩ 0 3 "openai" 7 [] (Or.inl rfl)

/-! ## Claim C10: persistence failure is non-fatal -/

/-- C10: whenever `prepareAssistantNote` succeeds and the repository write
fails — rejected fetch or non-ok response — `upsertNoteToMongo` still
resolves (the failure is caught), a warning is logged, no alert is raised,
and the new note is still prepended to the in-memory list. -/
theorem persistence_failure_nonfatal (env : PipelineEnv) (audioSize : Nat)
    (duration : ℚ) (provider : String) (now : Nat) (notes : List Note)
    (note : Note) (embedding : List ℚ)
    (hprep : (prepareAssistantNote env audioSize duration provider now).1
      = Except.ok (note, embedding))
    (hfail : (∃ m, env.persistResp = Except.error m) ∨ env.persistResp = Except.ok false) :
    (handleRecordingComplete env audioSize duration provider now notes).notes
      = note :: notes
    ∧ (handleRecordingComplete env audioSize duration provider now notes).alertMsg = none
    ∧ (upsertNoteToMongo env.persistResp).1 = Except.ok ()
    ∧ (handleRecordingComplete env audioSize duration provider now notes).persistLog.isSome
      = true := by
  rcases hfail with ⟨m, hm⟩ | hm <;>
    simp [handleRecordingComplete, hprep, upsertNoteToMongo, hm]

/-- The pipeline environment of the C10 witness: every stage succeeds
except the repository write, whose fetch resolves non-ok. -/
def c10Env : PipelineEnv :=
  { hasAssemblyKey := true, hasLlamaKey := true,
    transcribeResp := Except.ok ⟨"Buy milk and eggs", none⟩,
    orchestrateResp := Except.ok ⟨"Buy milk and eggs", "A shopping list.", "Shopping", ["voice", "note"]⟩,
    embedResp := Except.ok [1, 2],
    persistResp := Except.ok false }

/-- The note the C10 witness pipeline produces. -/
def c10Note : Note :=
  { id := "7", title := "Shopping", createdAt := 7, duration := 3,
    transcript := "Buy milk and eggs", summary := "A shopping list.",
    tags := ["voice", "note"], audioSize := some 100,
    vectorScore := none, llmProvider := some "openai" }

/-- Witness for C10: with a failing (non-ok) repository write, the note is
still prepended and no error surfaces. -/
theorem persistence_failure_nonfatal_witness :
    (handleRecordingComplete c10Env 100 3 "openai" 7 []).notes = [c10Note]
    ∧ (handleRecordingComplete c10Env 100 3 "openai" 7 []).alertMsg = none
    ∧ (upsertNoteToMongo c10Env.persistResp).1 = Except.ok ()
    ∧ (handleRecordingComplete c10Env 100 3 "openai" 7 []).persistLog.isSome = true :=
  persistence_failure_nonfatal c10Env 100 3 "openai" 7 [] c10Note [1, 2]
    rfl (Or.inr rfl)

/-! ## Server orchestration: LlamaIndex primary, direct-provider fallback
(`orchestrateWithLlamaIndex` / `orchestrateWithDirectLLM` in
`server/index.js`) -/

/-- The value produced by a successful `JSON.parse` of an LLM reply, with
JavaScript-style optional fields: `none` models a missing/`undefined`
field, and for `tags` also a non-array value (`Array.isArray` check). -/
structure ParsedAnalysis where
  transcript : Option String
  summary : Option String
  title : Option String
  tags : Option (List String)

/-- The outcome of one LLM HTTP call as the server sees it: `ok` is
`response.ok`, `content` the extracted reply text
(`choices[0].message.content`, or the `candidates` path for Gemini). -/
structure LlmReply where
  ok : Bool
  content : Option String
  deriving Repr, DecidableEq

/-- The JSON-or-degrade parsing step of `orchestrateWithDirectLLM`
(`server/index.js`): strip a fenced ```...``` block if the regex matches,
`JSON.parse`; on success apply `||`-style defaults, on failure degrade —
raw text truncated to 200 chars as summary, transcript-derived or generic
title, default tags.  `JSON.parse` and the fence regex are external
library functions, passed in as oracles. -/
def parseOrDegradeDirect (jsonParse : String → Option ParsedAnalysis)
    (fenceMatch : String → Option String) (content transcript : String) :
    AnalysisResult :=
  let jsonContent := match fenceMatch content with
    | some s => trimStr s
    | none => content
  match jsonParse jsonContent with
  | some parsed =>
    { transcript := jsOr parsed.transcript transcript,
      summary := jsOr parsed.summary "Summary not available",
      title := jsOr parsed.title "Untitled Recording",
      tags := parsed.tags.getD ["voice", "note"] }
  | none =>
    { transcript := transcript,
      summary := if 200 < lenStr content then takeStr content 200 ++ "..." else content,
      title := if 50 < lenStr transcript then takeStr transcript 50 ++ "..."
               else "Voice Recording",
      tags := ["voice", "note"] }

/-- The JSON-or-degrade parsing step of `orchestrateWithLlamaIndex`
(`server/index.js`); its degrade branch truncates at threshold 100 and
uses the generic title. -/
def parseOrDegradeLlama (jsonParse : String → Option ParsedAnalysis)
    (fenceMatch : String → Option String) (content transcript : String) :
    AnalysisResult :=
  let jsonContent := match fenceMatch content with
    | some s => trimStr s
    | none => content
  match jsonParse jsonContent with
  | some parsed =>
    { transcript := jsOr parsed.transcript transcript,
      summary := jsOr parsed.summary "Summary not available",
      title := jsOr parsed.title "Untitled Recording",
      tags := parsed.tags.getD ["voice", "note"] }
  | none =>
    { transcript := transcript,
      summary := if 100 < lenStr content then takeStr content 200 ++ "..." else content,
      title := "Voice Recording",
      tags := ["voice", "note"] }

/-- `orchestrateWithDirectLLM` from `server/index.js`: the provider switch
throws on an unknown provider or a missing key before any call; a non-ok
response or missing content throws; otherwise the JSON-or-degrade rule
applies and the function resolves. -/
def orchestrateWithDirectLLM (jsonParse : String → Option ParsedAnalysis)
    (fenceMatch : String → Option String) (hasProviderKey : Bool)
    (resp : Except String LlmReply) (transcript provider : String) :
    Except String AnalysisResult :=
  if ¬ (provider = "openai" ∨ provider = "grok" ∨ provider = "gemini") then
    Except.error ("Unsupported LLM provider: " ++ provider)
  else if ¬ hasProviderKey then
    Except.error (provider ++ " API key not configured")
  else
    match resp with
    | Except.error e => Except.error e
    | Except.ok r =>
      if ¬ r.ok then Except.error (provider ++ " API error")
      else
        match r.content with
        | none => Except.error ("No content in " ++ provider ++ " response")
        | some content =>
          Except.ok (parseOrDegradeDirect jsonParse fenceMatch content transcript)

/-- Which orchestration paths are invoked, in order. -/
inductive OrchCall where
  | llama : OrchCall
  | direct : OrchCall
  deriving Repr, DecidableEq

/-- `orchestrateWithLlamaIndex` from `server/index.js` with its call
trace.  Control flow: no LlamaCloud key — direct fallback immediately; the
LlamaIndex fetch rejects — the outer `catch` calls the direct fallback
(whose own failure then propagates); the fetch resolves non-ok or without
content — `return await orchestrateWithDirectLLM(...)` runs INSIDE the
`try`, so when that direct call itself rejects, the outer `catch` catches
it and invokes the direct fallback a second time; a resolved reply with
content is parsed with the JSON-or-degrade rule and never falls back. -/
def orchestrateWithLlamaIndex (jsonParse : String → Option ParsedAnalysis)
    (fenceMatch : String → Option String) (hasLlamaKey hasProviderKey : Bool)
    (llamaResp directResp : Except String LlmReply) (transcript provider : String) :
    Except String AnalysisResult × List OrchCall :=
  let directCall :=
    orchestrateWithDirectLLM jsonParse fenceMatch hasProviderKey directResp
      transcript provider
  if ¬ hasLlamaKey then (directCall, [OrchCall.direct])
  else
    match llamaResp with
    | Except.error _ => (directCall, [OrchCall.llama, OrchCall.direct])
    | Except.ok r =>
      if ¬ r.ok then
        match directCall with
        | Except.ok a => (Except.ok a, [OrchCall.llama, OrchCall.direct])
        | Except.error e =>
          (Except.error e, [OrchCall.llama, OrchCall.direct, OrchCall.direct])
      else
        match r.content with
        | none =>
          match directCall with
          | Except.ok a => (Except.ok a, [OrchCall.llama, OrchCall.direct])
          | Except.error e =>
            (Except.error e, [OrchCall.llama, OrchCall.direct, OrchCall.direct])
        | some content =>
          (Except.ok (parseOrDegradeLlama jsonParse fenceMatch content transcript),
           [OrchCall.llama])

theorem append_dots_ne_empty (s : String) : s ++ "..." ≠ "" := by
  obtain ⟨d⟩ := s
  intro h
  have hd : d ++ "...".data = ([] : List Char) := congrArg String.data h
  simp at hd

/-! ## Claim C4: JSON-degrade on malformed analysis reply -/

/-- C4: for any non-empty reply content that the fence regex does not
match and `JSON.parse` rejects, `orchestrateWithDirectLLM` resolves (never
propagates a parse error) with the degraded record: summary is the raw
text truncated to 200 characters (plus ellipsis) and hence non-empty, and
tags are the documented default set `["voice", "note"]`. -/
theorem json_degrade_on_malformed_reply (jsonParse : String → Option ParsedAnalysis)
    (fenceMatch : String → Option String) (r : LlmReply)
    (content transcript provider : String)
    (hprov : provider = "openai" ∨ provider = "grok" ∨ provider = "gemini")
    (hok : r.ok = true) (hcontent : r.content = some content) (hne : content ≠ "")
    (hfence : fenceMatch content = none) (hparse : jsonParse content = none) :
    orchestrateWithDirectLLM jsonParse fenceMatch true (Except.ok r) transcript provider
      = Except.ok
        { transcript := transcript,
          summary := if 200 < lenStr content then takeStr content 200 ++ "..." else content,
          title := if 50 < lenStr transcript then takeStr transcript 50 ++ "..."
                   else "Voice Recording",
          tags := ["voice", "note"] }
    ∧ (if 200 < lenStr content then takeStr content 200 ++ "..." else content) ≠ "" := by
  constructor
  · simp [orchestrateWithDirectLLM, hprov, hok, hcontent, parseOrDegradeDirect,
      hfence, hparse]
  · by_cases hl : 200 < lenStr content
    · simp only [if_pos hl]
      exact append_dots_ne_empty _
    · simpa [if_neg hl] using hne

/-- Witness for C4: a plain-prose reply with a parser that rejects it. -/
theorem json_degrade_on_malformed_reply_witness :
    orchestrateWithDirectLLM (fun _ => none) (fun _ => none) true
        (Except.ok ⟨true, some "I cannot produce JSON, sorry."⟩)
        "hello world" "openai"
      = Except.ok
        { transcript := "hello world",
          summary := if 200 < lenStr "I cannot produce JSON, sorry."
                     then takeStr "I cannot produce JSON, sorry." 200 ++ "..."
                     else "I cannot produce JSON, sorry.",
          title := if 50 < lenStr "hello world" then takeStr "hello world" 50 ++ "..."
                   else "Voice Recording",
          tags := ["voice", "note"] }
    ∧ (if 200 < lenStr "I cannot produce JSON, sorry."
       then takeStr "I cannot produce JSON, sorry." 200 ++ "..."
       else "I cannot produce JSON, sorry.") ≠ "" :=
  json_degrade_on_malformed_reply (fun _ => none) (fun _ => none)
    ⟨true, some "I cannot produce JSON, sorry."⟩
    "I cannot produce JSON, sorry." "hello world" "openai"
    (Or.inl rfl) rfl rfl (by decide) rfl rfl

/-! ## Claim C5: fallback ordering -/

/-- C5 counterexample: LlamaCloud key configured, the LlamaIndex call
returns HTTP 500 (`ok = false`), and the direct provider call itself
throws (here: no OpenAI key).  Because the in-`try` fallback rejection is
caught by the outer `catch`, the direct provider is invoked twice, not
exactly once. -/
theorem fallback_exactly_once_counterexample :
    (orchestrateWithLlamaIndex (fun _ => none) (fun _ => none) true false
        (Except.ok ⟨false, none⟩) (Except.ok ⟨true, some "{}"⟩) "t" "openai").2
      = [OrchCall.llama, OrchCall.direct, OrchCall.direct]
    ∧ ¬ ((orchestrateWithLlamaIndex (fun _ => none) (fun _ => none) true false
        (Except.ok ⟨false, none⟩) (Except.ok ⟨true, some "{}"⟩) "t" "openai").2.count
          OrchCall.direct = 1) := by
  exact ⟨rfl, by decide⟩

/-- C5 (amended): with the orchestrator configured and returning a
non-success status, the orchestrator is invoked exactly once and never
again after the direct provider is tried (the trace always starts with the
single `llama` call); the direct provider is invoked exactly once when its
call resolves, but twice when it rejects — the outer `catch` retries the
direct path (never the orchestrator) before propagating the error. -/
theorem fallback_ordering_amended (jsonParse : String → Option ParsedAnalysis)
    (fenceMatch : String → Option String) (hasProviderKey : Bool)
    (directResp : Except String LlmReply) (transcript provider : String)
    (r : LlmReply) (hfail : r.ok = false) :
    (orchestrateWithLlamaIndex jsonParse fenceMatch true hasProviderKey
        (Except.ok r) directResp transcript provider).2.count OrchCall.llama = 1
    ∧ ((∃ a, orchestrateWithDirectLLM jsonParse fenceMatch hasProviderKey directResp
            transcript provider = Except.ok a) →
        (orchestrateWithLlamaIndex jsonParse fenceMatch true hasProviderKey
            (Except.ok r) directResp transcript provider).2
          = [OrchCall.llama, OrchCall.direct])
    ∧ ((∃ e, orchestrateWithDirectLLM jsonParse fenceMatch hasProviderKey directResp
            transcript provider = Except.error e) →
        (orchestrateWithLlamaIndex jsonParse fenceMatch true hasProviderKey
            (Except.ok r) directResp transcript provider).2
          = [OrchCall.llama, OrchCall.direct, OrchCall.direct]) := by
  cases hd : orchestrateWithDirectLLM jsonParse fenceMatch hasProviderKey directResp
      transcript provider with
  | ok a =>
    refine ⟨?_, fun _ => ?_, fun he => ?_⟩
    · simp [orchestrateWithLlamaIndex, hfail, hd, List.count_cons]
    · simp [orchestrateWithLlamaIndex, hfail, hd]
    · obtain ⟨e, he⟩ := he
      simp at he
  | error e =>
    refine ⟨?_, fun ha => ?_, fun _ => ?_⟩
    · simp [orchestrateWithLlamaIndex, hfail, hd, List.count_cons]
    · obtain ⟨a, ha⟩ := ha
      simp at ha
    · simp [orchestrateWithLlamaIndex, hfail, hd]

/-- Witness for C5 (amended): orchestrator returns 500, direct provider
(key present, well-formed JSON-less reply) resolves: trace is exactly
`[llama, direct]`. -/
theorem fallback_ordering_amended_witness :
    (orchestrateWithLlamaIndex (fun _ => none) (fun _ => none) true true
        (Except.ok ⟨false, none⟩) (Except.ok ⟨true, some "plain text"⟩)
        "t" "openai").2.count OrchCall.llama = 1
    ∧ ((∃ a, orchestrateWithDirectLLM (fun _ => none) (fun _ => none) true
            (Except.ok ⟨true, some "plain text"⟩) "t" "openai" = Except.ok a) →
        (orchestrateWithLlamaIndex (fun _ => none) (fun _ => none) true true
            (Except.ok ⟨false, none⟩) (Except.ok ⟨true, some "plain text"⟩)
            "t" "openai").2
          = [OrchCall.llama, OrchCall.direct])
    ∧ ((∃ e, orchestrateWithDirectLLM (fun _ => none) (fun _ => none) true
            (Except.ok ⟨true, some "plain text"⟩) "t" "openai" = Except.error e) →
        (orchestrateWithLlamaIndex (fun _ => none) (fun _ => none) true true
            (Except.ok ⟨false, none⟩) (Except.ok ⟨true, some "plain text"⟩)
            "t" "openai").2
          = [OrchCall.llama, OrchCall.direct, OrchCall.direct]) :=
  fallback_ordering_amended (fun _ => none) (fun _ => none) true
    (Except.ok ⟨true, some "plain text"⟩) "t" "openai" ⟨false, none⟩ rfl

/-! ## Chat sessions: auto-titling (`components/ChatPage.tsx`) -/

/-- Splitting on the single-space separator, as
`String.prototype.split(' ')` does (consecutive spaces yield empty
fragments, exactly like JavaScript). -/
def splitSpaces (cs : List Char) : List (List Char) :=
  match cs with
  | [] => [[]]
  | c :: rest =>
    let r := splitSpaces rest
    if c = ' ' then [] :: r
    else
      match r with
      | [] => [[c]]
      | w :: ws => (c :: w) :: ws

/-- `String.prototype.split(' ')` on strings. -/
def splitOnSpace (s : String) : List String := (splitSpaces s.data).map String.mk

/-- `[w, ...].join(' ')`. -/
def joinSpace : List String → String
  | [] => ""
  | [w] => w
  | w :: ws => w ++ " " ++ joinSpace ws

/-- `generateTitle` from `components/ChatPage.tsx`: first 6 words of the
text joined by spaces, truncated to 40 characters with a trailing ellipsis
when longer. -/
def generateTitle (text : String) : String :=
  let words := joinSpace ((splitOnSpace text).take 6)
  if 40 < lenStr words then takeStr words 40 ++ "..." else words

/-- The session-sync `useEffect` of `ChatPage` as triggered by a change of
`messages`: with a current session and a non-empty message list, store the
messages, bump `updatedAt`, and — only while the title still equals the
default `'New Chat'` — derive the title from the first message's text. -/
def syncSessionOnMessages (s : ChatSession) (msgs : List ChatMessage) (now : Nat) :
    ChatSession :=
  match msgs with
  | [] => s
  | m0 :: _ =>
    { s with
      messages := msgs
      updatedAt := now
      title := if s.title = "New Chat" then generateTitle m0.text else s.title }

/-- Appending one message (`setMessages(prev => [...prev, msg])`) followed
by the sync effect. -/
def appendMessage (s : ChatSession) (m : ChatMessage) (now : Nat) : ChatSession :=
  syncSessionOnMessages s (s.messages ++ [m]) now

/-- Appending a whole sequence of `(message, Date.now())` events. -/
def appendMessages (s : ChatSession) : List (ChatMessage × Nat) → ChatSession
  | [] => s
  | (m, now) :: rest => appendMessages (appendMessage s m now) rest

/-- After the first transition the session's messages stay non-empty and
its title stays the one derived from the first message. -/
theorem appendMessages_title_stable (later : List (ChatMessage × Nat)) :
    ∀ (s : ChatSession) (m0 : ChatMessage) (rest : List ChatMessage),
    s.messages = m0 :: rest → s.title = generateTitle m0.text →
    (appendMessages s later).title = s.title := by
  induction later with
  | nil => intro s m0 rest _ _; rfl
  | cons p later ih =>
    intro s m0 rest hmsgs htitle
    obtain ⟨m, now⟩ := p
    have hmsgs' : (appendMessage s m now).messages = m0 :: (rest ++ [m]) := by
      simp [appendMessage, syncSessionOnMessages, hmsgs]
    have htitle' : (appendMessage s m now).title = s.title := by
      simp only [appendMessage, syncSessionOnMessages, hmsgs]
      by_cases hnc : s.title = "New Chat"
      · simp [List.cons_append, hnc, ← htitle]
      · simp [List.cons_append, hnc]
    have hih := ih (appendMessage s m now) m0 (rest ++ [m]) hmsgs' (htitle' ▸ htitle)
    show (appendMessages (appendMessage s m now) later).title = s.title
    rw [hih, htitle']

/-- C7: a session still titled `'New Chat'` with no messages gets, on its
first message append, the title generated from that message (first 6
words, 40-char truncation with ellipsis); and no later sequence of appends
ever changes the title again. -/
theorem session_auto_titling (s : ChatSession) (m : ChatMessage) (now : Nat)
    (hdefault : s.title = "New Chat") (hempty : s.messages = []) :
    (appendMessage s m now).title = generateTitle m.text
    ∧ ∀ (later : List (ChatMessage × Nat)),
        (appendMessages (appendMessage s m now) later).title = generateTitle m.text := by
  have h1 : (appendMessage s m now).title = generateTitle m.text := by
    unfold appendMessage syncSessionOnMessages
    rw [hempty]
    simp [hdefault]
  refine ⟨h1, fun later => ?_⟩
  have hmsgs : (appendMessage s m now).messages = m :: [] := by
    simp [appendMessage, syncSessionOnMessages, hempty]
  rw [appendMessages_title_stable later (appendMessage s m now) m [] hmsgs h1, h1]

/-- Witness for C7: a fresh `'New Chat'` session receiving
"please summarize all my meeting notes from last week" is titled with the
first six words, and two further appends leave the title unchanged. -/
theorem session_auto_titling_witness :
    (appendMessage ⟨"s1", "New Chat", [], 0, 0⟩
        ⟨"m1", "user", "please summarize all my meeting notes from last week", 1⟩
        1).title
      = generateTitle "please summarize all my meeting notes from last week"
    ∧ ∀ (later : List (ChatMessage × Nat)),
        (appendMessages
          (appendMessage ⟨"s1", "New Chat", [], 0, 0⟩
            ⟨"m1", "user", "please summarize all my meeting notes from last week", 1⟩
            1) later).title
        = generateTitle "please summarize all my meeting notes from last week" :=
  session_auto_titling ⟨"s1", "New Chat", [], 0, 0⟩
    ⟨"m1", "user", "please summarize all my meeting notes from last week", 1⟩
    1 rfl rfl

/-! ## Claim C9: regeneration recomputes the embedding -/

/-- A note document as the server stores it, with its embedding vector
(the `[MONGODB_VECTOR_PATH]: embedding` field of the Mongo document) and
the base64 audio the server can re-transcribe. -/
structure StoredNote (Vec : Type) where
  id : String
  transcript : String
  summary : String
  title : String
  tags : List String
  audioData : String
  embedding : Vec

/-- Modelled from the spec: the `POST /api/notes/:id/regenerate` handler.
The client `regenerateNote` in `services/assistantService.ts` calls this
endpoint, but no Express route for it exists in the sources; §4.4 of the
spec fixes its behaviour — retrieve the stored audio, re-transcribe,
re-analyze, persist the update in place, and recompute the embedding from
the new (raw) transcript; recomputation is never skipped.  The
transcription, analysis and embedding providers are passed as oracles. -/
def regenerateNoteOnServer {Vec : Type}
    (transcribe : String → String) (analyze : String → AnalysisResult)
    (embed : String → Vec) (stored : StoredNote Vec) : StoredNote Vec :=
  let newTranscript := transcribe stored.audioData
  let analysis := analyze newTranscript
  { stored with
    transcript := analysis.transcript
    summary := analysis.summary
    title := analysis.title
    tags := analysis.tags
    embedding := embed newTranscript }

/-- C9: regeneration always stores `embed(newTranscript)` — recomputation
is never skipped — and when the re-transcription differs from the
transcript the stored embedding was computed from, the new embedding
differs from the stored one (for an embedding function that separates the
two transcripts, e.g. any injective one). -/
theorem regenerate_recomputes_embedding {Vec : Type}
    (transcribe : String → String) (analyze : String → AnalysisResult)
    (embed : String → Vec) (stored : StoredNote Vec) (oldTranscript : String)
    (hstored : stored.embedding = embed oldTranscript)
    (hchanged : transcribe stored.audioData ≠ oldTranscript)
    (hinj : Function.Injective embed) :
    (regenerateNoteOnServer transcribe analyze embed stored).embedding
      = embed (transcribe stored.audioData)
    ∧ (regenerateNoteOnServer transcribe analyze embed stored).embedding
      ≠ stored.embedding := by
  refine ⟨rfl, ?_⟩
  rw [hstored]
  intro h
  exact hchanged (hinj h)

/-- Witness for C9 with the identity embedding (injective) and a changed
re-transcription. -/
theorem regenerate_recomputes_embedding_witness :
    (regenerateNoteOnServer (fun _ => "new words")
        (fun t => ⟨t, "summary", "title", []⟩) (fun s => s)
        ⟨"1", "old words", "s", "t", [], "AUDIO", "old words"⟩).embedding
      = "new words"
    ∧ (regenerateNoteOnServer (fun _ => "new words")
        (fun t => ⟨t, "summary", "title", []⟩) (fun s => s)
        ⟨"1", "old words", "s", "t", [], "AUDIO", "old words"⟩).embedding
      ≠ "old words" :=
  regenerate_recomputes_embedding (fun _ => "new words")
    (fun t => ⟨t, "summary", "title", []⟩) (fun s => s)
    ⟨"1", "old words", "s", "t", [], "AUDIO", "old words"⟩ "old words"
    rfl (by decide) (fun _ _ h => h)
